import Mathlib

/-!
Shallow embedding of `src/models.py` (IPOTrackingBackend): a data-access
layer over a PostgreSQL store, with user creation/authentication (bcrypt),
IPO storage/retrieval, a per-user watchlist and a per-user investment
ledger.

The database is embedded as explicit state (`DBState`): one list of rows
per table plus the SERIAL counters and the store's current timestamp.
PostgreSQL statement semantics are embedded faithfully:
  * UNIQUE / NOT NULL / FOREIGN KEY violations raise errors that, per the
    psycopg2 driver, all belong to the `IntegrityError` class (SQLSTATE
    class 23: `UniqueViolation` 23505, `NotNullViolation` 23502,
    `ForeignKeyViolation` 23503 are all subclasses of
    `psycopg2.IntegrityError`);
  * a column DEFAULT applies only when the column is omitted from an
    INSERT; every INSERT in `models.py` lists its columns explicitly, so
    an explicit NULL is stored as NULL, never replaced by the default;
  * `ORDER BY ... ASC` sorts ascending with NULLs last (PostgreSQL's
    default null ordering for ASC); `DESC` sorts descending with NULLs
    first;
  * a failed statement leaves the rows unchanged (`conn.rollback()` /
    close-without-commit).
Timestamps and dates are represented as `Int`, SQL strings as `String`,
NULLable columns as `Option`.  bcrypt is an external collaborator: it is
modelled by its contract (the salted hash of `p` verifies against `p` and
against nothing else); the random salt drawn by `bcrypt.gensalt()` is an
explicit argument.  Python dictionaries passed to `store_ipo` are
modelled per key as absent, or present with a (possibly `None`) value,
which is exactly the distinction `d['k']` / `d.get('k', default)` sees.
-/

/-- Database-level error condition raised by a statement, tagged with the
kind of constraint violated (SQLSTATE class 23 conditions that the
statements of `models.py` can raise). -/
inductive DBErr where
  | UniqueViolation
  | NotNullViolation
  | ForeignKeyViolation
deriving DecidableEq, Repr

/-- Python-level exceptions escaping an operation of `models.py`:
driver errors carrying a database condition, and `KeyError` from a
mandatory dictionary lookup. -/
inductive PyErr where
  | DatabaseError (e : DBErr)
  | KeyError (key : String)
deriving DecidableEq, Repr

/-- `except psycopg2.IntegrityError:` — which exceptions that clause
catches.  In psycopg2 every SQLSTATE class-23 condition (unique, not-null,
foreign-key, check violations) is a subclass of `IntegrityError`;
`KeyError` is not a driver error and is never caught there. -/
def PyErr.isIntegrityError : PyErr → Bool
  | .DatabaseError _ => true
  | .KeyError _ => false

/-- Model of a stored bcrypt hash.  bcrypt is an external library; only
its contract matters here: the hash produced from password `pwd` and a
random salt verifies against exactly `pwd`. -/
structure BcryptHash where
  salt : Nat
  pwd : String
deriving DecidableEq, Repr

/-- `bcrypt.hashpw(password.encode('utf-8'), bcrypt.gensalt())` — the salt
drawn by `gensalt()` is passed explicitly. -/
def hashpw (password : String) (salt : Nat) : BcryptHash :=
  ⟨salt, password⟩

/-- `bcrypt.checkpw(password.encode('utf-8'), stored_hash)`. -/
def checkpw (password : String) (h : BcryptHash) : Bool :=
  password == h.pwd

/-- One key of a Python dict: absent, or present with a value that may
itself be `None`.  `d['k']` raises `KeyError` only when the key is
absent; `d.get('k', default)` yields the default only when the key is
absent (a stored `None` is returned as is). -/
inductive Entry (α : Type) where
  | absent
  | val (v : Option α)
deriving DecidableEq, Repr

/-- `d.get(key, default)` (with `default = none` for the one-argument
form `d.get(key)`). -/
def Entry.get {α : Type} (e : Entry α) (default : Option α) : Option α :=
  match e with
  | .absent => default
  | .val v => v

/-- `d[key]`: raises `KeyError key` when the key is absent. -/
def Entry.item {α : Type} (e : Entry α) (key : String) : Except PyErr (Option α) :=
  match e with
  | .absent => .error (.KeyError key)
  | .val v => .ok v

/-- A row of the `Users` table (`init_db`): `username`, `email`,
`password_hash` are NOT NULL (hence stored un-optioned), `first_name`
and `last_name` are nullable, `created_at` defaults to the current
timestamp. -/
structure UserRow where
  user_id : Nat
  username : String
  email : String
  password_hash : BcryptHash
  first_name : Option String
  last_name : Option String
  created_at : Int
deriving DecidableEq, Repr

/-- A row of the `IPOs` table: `name` and `symbol` NOT NULL, all other
data columns nullable; `status` defaults to `'upcoming'` (column default,
applied only when the column is omitted from an INSERT). -/
structure IpoRow where
  ipo_id : Nat
  name : String
  symbol : String
  company_name : Option String
  offering_price : Option Int
  total_shares : Option Int
  ipo_date : Option Int
  status : Option String
  description : Option String
  created_at : Int
  updated_at : Int
deriving DecidableEq, Repr

/-- A row of the `Ongoing_Watchlist` table: `user_id` and `ipo_id` are
NOT NULL foreign keys, `expiry_date` nullable. -/
structure WatchRow where
  watchlist_id : Nat
  user_id : Nat
  ipo_id : Nat
  expiry_date : Option Int
deriving DecidableEq, Repr

/-- A row of the `Past_Investments` table: `sold_date` and `status` are
nullable with column defaults (current timestamp / `'pending'`) that
apply only when the column is omitted from an INSERT. -/
structure InvestmentRow where
  investment_id : Nat
  user_id : Nat
  ipo_id : Nat
  shares_purchased : Int
  purchase_price : Int
  sold_date : Option Int
  status : Option String
deriving DecidableEq, Repr

/-- The visible state of the store: the four tables created by `init_db`,
the next value of each SERIAL sequence, and the store's current-timestamp
value `now` (`CURRENT_TIMESTAMP`). -/
structure DBState where
  users : List UserRow
  ipos : List IpoRow
  watchlist : List WatchRow
  investments : List InvestmentRow
  nextUserId : Nat
  nextIpoId : Nat
  nextWatchlistId : Nat
  nextInvestmentId : Nat
  now : Int
deriving DecidableEq, Repr

/-- `INSERT INTO Users (username, email, password_hash, first_name,
last_name) VALUES (...) RETURNING user_id` as executed by the store:
NOT NULL checks on username/email, then the two UNIQUE constraints, then
the insert with a generated key and the `created_at` default. -/
def usersInsert (s : DBState) (username email : Option String)
    (password_hash : BcryptHash) (first_name last_name : Option String) :
    Except PyErr (Nat × DBState) :=
  match username, email with
  | some un, some em =>
    if s.users.any (fun u => u.username == un) then
      .error (.DatabaseError .UniqueViolation)
    else if s.users.any (fun u => u.email == em) then
      .error (.DatabaseError .UniqueViolation)
    else
      let uid := s.nextUserId
      .ok (uid, { s with
        users := s.users ++ [⟨uid, un, em, password_hash, first_name, last_name, s.now⟩],
        nextUserId := uid + 1 })
  | _, _ => .error (.DatabaseError .NotNullViolation)

/-- `create_user(username, email, password, first_name, last_name)`
(`models.py:98-125`): hash the password with a fresh salt, insert,
commit and return the generated id; on `psycopg2.IntegrityError` roll
back and return `None`; any other exception propagates. -/
def create_user (username email : Option String) (password : String)
    (first_name last_name : Option String) (salt : Nat) (s : DBState) :
    Except PyErr (Option Nat × DBState) :=
  let password_hash := hashpw password salt
  match usersInsert s username email password_hash first_name last_name with
  | .ok (uid, s') => .ok (some uid, s')
  | .error e =>
    if e.isIntegrityError then
      .ok (none, s)
    else
      .error e

/-- `authenticate_user(username, password)` (`models.py:127-142`):
`SELECT * FROM Users WHERE username = %s` then `fetchone()` (first
matching row), followed by the bcrypt check; reads only, never writes. -/
def authenticate_user (username password : String) (s : DBState) :
    Option UserRow :=
  match s.users.find? (fun u => u.username == username) with
  | some user =>
    if checkpw password user.password_hash then some user else none
  | none => none

/-- The eight values `store_ipo` reads from its `ipo_data` dict, each a
possibly-absent, possibly-`None` dictionary entry. -/
structure IpoData where
  name : Entry String
  symbol : Entry String
  company_name : Entry String
  offering_price : Entry Int
  total_shares : Entry Int
  ipo_date : Entry Int
  status : Entry String
  description : Entry String
deriving DecidableEq, Repr

/-- `INSERT INTO IPOs (name, symbol, company_name, offering_price,
total_shares, ipo_date, status, description) VALUES (...)`: NOT NULL on
name/symbol; every listed column stores exactly the supplied value
(an explicit NULL is stored, the `status` column default does not
apply); `created_at`/`updated_at` take the current-timestamp default. -/
def iposInsert (s : DBState) (name symbol company_name : Option String)
    (offering_price total_shares ipo_date : Option Int)
    (status description : Option String) :
    Except PyErr (Nat × DBState) :=
  match name, symbol with
  | some n, some sy =>
    let iid := s.nextIpoId
    .ok (iid, { s with
      ipos := s.ipos ++
        [⟨iid, n, sy, company_name, offering_price, total_shares, ipo_date,
          status, description, s.now, s.now⟩],
      nextIpoId := iid + 1 })
  | _, _ => .error (.DatabaseError .NotNullViolation)

/-- `store_ipo(ipo_data)` (`models.py:148-173`): mandatory lookups
`ipo_data['name']`, `ipo_data['symbol']` (raising `KeyError` when
absent), defaulting lookups for the rest with
`ipo_data.get('status', 'upcoming')` for status, then an unconditional
insert; returns `True`.  No exception is caught. -/
def store_ipo (ipo_data : IpoData) (s : DBState) :
    Except PyErr (Bool × DBState) :=
  match ipo_data.name.item "name" with
  | .error e => .error e
  | .ok name =>
    match ipo_data.symbol.item "symbol" with
    | .error e => .error e
    | .ok symbol =>
      match iposInsert s name symbol (ipo_data.company_name.get none)
          (ipo_data.offering_price.get none) (ipo_data.total_shares.get none)
          (ipo_data.ipo_date.get none) (ipo_data.status.get (some "upcoming"))
          (ipo_data.description.get none) with
      | .ok (_, s') => .ok (true, s')
      | .error e => .error e

/-- `get_ipo(ipo_id)` (`models.py:175-186`): `SELECT * FROM IPOs WHERE
ipo_id = %s` then `fetchone()`; `None` when no row matches. -/
def get_ipo (ipo_id : Nat) (s : DBState) : Option IpoRow :=
  s.ipos.find? (fun i => i.ipo_id == ipo_id)

/-- `add_to_watchlist(user_id, ipo_id, expiry_date)`
(`models.py:192-208`): insert returning the generated `watchlist_id`;
the store checks the two NOT NULL foreign keys. -/
def add_to_watchlist (user_id ipo_id : Nat) (expiry_date : Option Int)
    (s : DBState) : Except PyErr (Nat × DBState) :=
  if s.users.any (fun u => u.user_id == user_id) then
    if s.ipos.any (fun i => i.ipo_id == ipo_id) then
      let wid := s.nextWatchlistId
      .ok (wid, { s with
        watchlist := s.watchlist ++ [⟨wid, user_id, ipo_id, expiry_date⟩],
        nextWatchlistId := wid + 1 })
    else .error (.DatabaseError .ForeignKeyViolation)
  else .error (.DatabaseError .ForeignKeyViolation)

/-- `remove_from_watchlist(watchlist_id, user_id)` (`models.py:210-224`):
`DELETE FROM Ongoing_Watchlist WHERE watchlist_id = %s AND user_id = %s`,
commit, and return `True` whether or not any row matched. -/
def remove_from_watchlist (watchlist_id user_id : Nat) (s : DBState) :
    Bool × DBState :=
  (true, { s with
    watchlist := s.watchlist.filter
      (fun e => !(e.watchlist_id == watchlist_id && e.user_id == user_id)) })

/-- One result row of `get_user_watchlist`: `ow.watchlist_id`,
`ow.expiry_date`, and all columns of the joined `IPOs` row (`i.*`). -/
structure WatchJoinRow where
  watchlist_id : Nat
  expiry_date : Option Int
  ipo : IpoRow
deriving DecidableEq, Repr

/-- The unsorted result set of the query in `get_user_watchlist`:
watchlist rows of the user, inner-joined with `IPOs` on `ipo_id`. -/
def watchJoin (user_id : Nat) (s : DBState) : List WatchJoinRow :=
  (s.watchlist.filter (fun e => e.user_id == user_id)).flatMap
    (fun e => (s.ipos.filter (fun i => i.ipo_id == e.ipo_id)).map
      (fun i => ⟨e.watchlist_id, e.expiry_date, i⟩))

/-- `ORDER BY ... ASC` comparison on a nullable date: ascending with
NULLs last (PostgreSQL's default for ASC). -/
def dateLE (a b : Option Int) : Bool :=
  match a, b with
  | none, none => true
  | none, some _ => false
  | some _, none => true
  | some x, some y => x ≤ y

/-- The row comparison of `ORDER BY i.ipo_date ASC` on the join rows. -/
def watchDateLE (r1 r2 : WatchJoinRow) : Prop :=
  dateLE r1.ipo.ipo_date r2.ipo.ipo_date = true

instance : DecidableRel watchDateLE := fun r1 r2 => by
  unfold watchDateLE
  infer_instance

/-- `get_user_watchlist(user_id)` (`models.py:226-243`): the join above,
ordered by `i.ipo_date ASC`.  `ORDER BY` guarantees only the ordering;
it is modelled by a sort of the result set. -/
def get_user_watchlist (user_id : Nat) (s : DBState) : List WatchJoinRow :=
  List.insertionSort watchDateLE (watchJoin user_id s)

/-- `add_investment(user_id, ipo_id, shares_purchased, purchase_price,
sold_date=None, status='pending')` (`models.py:249-265`): insert listing
the `sold_date` and `status` columns explicitly — so an omitted call
argument inserts SQL NULL for `sold_date` (the Python default `None`),
bypassing the column's current-timestamp default — and return the
generated `investment_id`.  The store checks the foreign keys. -/
def add_investment (user_id ipo_id : Nat)
    (shares_purchased purchase_price : Int) (sold_date : Option Int)
    (status : Option String) (s : DBState) : Except PyErr (Nat × DBState) :=
  if s.users.any (fun u => u.user_id == user_id) then
    if s.ipos.any (fun i => i.ipo_id == ipo_id) then
      let iid := s.nextInvestmentId
      .ok (iid, { s with
        investments := s.investments ++
          [⟨iid, user_id, ipo_id, shares_purchased, purchase_price,
            sold_date, status⟩],
        nextInvestmentId := iid + 1 })
    else .error (.DatabaseError .ForeignKeyViolation)
  else .error (.DatabaseError .ForeignKeyViolation)

/-- `update_investment_status(investment_id, user_id, status,
sold_date=None)` (`models.py:267-289`): when `sold_date` is truthy
(a `datetime` is always truthy in Python, so: present) run
`SET status = %s, sold_date = %s`, otherwise `SET status = %s`; both
UPDATEs are scoped by `WHERE investment_id = %s AND user_id = %s`;
return `True` whether or not any row matched. -/
def update_investment_status (investment_id user_id : Nat)
    (status : Option String) (sold_date : Option Int) (s : DBState) :
    Bool × DBState :=
  if sold_date.isSome then
    (true, { s with
      investments := s.investments.map (fun r =>
        if r.investment_id == investment_id && r.user_id == user_id then
          { r with status := status, sold_date := sold_date }
        else r) })
  else
    (true, { s with
      investments := s.investments.map (fun r =>
        if r.investment_id == investment_id && r.user_id == user_id then
          { r with status := status }
        else r) })

/-- One result row of `get_user_investments`: `pi.*` plus the IPO's
name (aliased `ipo_name`), symbol and date. -/
structure InvestJoinRow where
  inv : InvestmentRow
  ipo_name : String
  symbol : String
  ipo_date : Option Int
deriving DecidableEq, Repr

/-- The unsorted result set of the query in `get_user_investments`. -/
def investJoin (user_id : Nat) (s : DBState) : List InvestJoinRow :=
  (s.investments.filter (fun r => r.user_id == user_id)).flatMap
    (fun r => (s.ipos.filter (fun i => i.ipo_id == r.ipo_id)).map
      (fun i => ⟨r, i.name, i.symbol, i.ipo_date⟩))

/-- `ORDER BY ... DESC` comparison on a nullable date: descending with
NULLs first (PostgreSQL's default for DESC). -/
def dateGE (a b : Option Int) : Bool :=
  dateLE b a

/-- `get_user_investments(user_id)` (`models.py:291-308`): the join
above, ordered by `pi.sold_date DESC`. -/
def get_user_investments (user_id : Nat) (s : DBState) : List InvestJoinRow :=
  List.insertionSort (fun r1 r2 => dateGE r1.inv.sold_date r2.inv.sold_date = true)
    (investJoin user_id s)

/-! ### Operation relation for whole-layer invariants

`Op` enumerates one call to each public operation of `models.py` with its
arguments; `applyOp` gives the state of the store after the call, using
the layer's rollback semantics: a call that raises leaves the rows as
they were (`conn.rollback()` in `create_user`, close-without-commit
elsewhere).  `init_db` only issues `CREATE TABLE IF NOT EXISTS`
statements, so on a store whose tables exist it changes no row. -/

/-- One call to a public operation of `models.py`.  The `salt` argument
of `opCreateUser` is the random salt bcrypt draws inside the call. -/
inductive Op where
  | opInit
  | opCreateUser (username email : Option String) (password : String)
      (first_name last_name : Option String) (salt : Nat)
  | opAuthenticate (username password : String)
  | opStoreIpo (ipo_data : IpoData)
  | opGetIpo (ipo_id : Nat)
  | opAddWatch (user_id ipo_id : Nat) (expiry_date : Option Int)
  | opRemoveWatch (watchlist_id user_id : Nat)
  | opGetWatch (user_id : Nat)
  | opAddInvestment (user_id ipo_id : Nat)
      (shares_purchased purchase_price : Int) (sold_date : Option Int)
      (status : Option String)
  | opUpdateInvestment (investment_id user_id : Nat) (status : Option String)
      (sold_date : Option Int)
  | opGetInvestments (user_id : Nat)
deriving DecidableEq

/-- State of the store after one call: reads leave it untouched, writes
commit their new state, and a raised exception rolls back to the state
before the call. -/
def applyOp (o : Op) (s : DBState) : DBState :=
  match o with
  | .opInit => s
  | .opCreateUser un em pw fn ln salt =>
    match create_user un em pw fn ln salt s with
    | .ok (_, s') => s'
    | .error _ => s
  | .opAuthenticate _ _ => s
  | .opStoreIpo d =>
    match store_ipo d s with
    | .ok (_, s') => s'
    | .error _ => s
  | .opGetIpo _ => s
  | .opAddWatch u i e =>
    match add_to_watchlist u i e s with
    | .ok (_, s') => s'
    | .error _ => s
  | .opRemoveWatch w u => (remove_from_watchlist w u s).2
  | .opGetWatch _ => s
  | .opAddInvestment u i sh pp sd st =>
    match add_investment u i sh pp sd st s with
    | .ok (_, s') => s'
    | .error _ => s
  | .opUpdateInvestment i u st sd => (update_investment_status i u st sd s).2
  | .opGetInvestments _ => s

/-! ### Helper lemmas -/

/-- Successful `Users` insert under fresh username and email. -/
lemma usersInsert_ok (s : DBState) (un em : String) (ph : BcryptHash)
    (fn ln : Option String)
    (h1 : ∀ u ∈ s.users, u.username ≠ un)
    (h2 : ∀ u ∈ s.users, u.email ≠ em) :
    usersInsert s (some un) (some em) ph fn ln =
      .ok (s.nextUserId, { s with
        users := s.users ++ [⟨s.nextUserId, un, em, ph, fn, ln, s.now⟩],
        nextUserId := s.nextUserId + 1 }) := by
  have hA : s.users.any (fun u => u.username == un) = false := by
    simp only [List.any_eq_false, beq_iff_eq]
    exact h1
  have hB : s.users.any (fun u => u.email == em) = false := by
    simp only [List.any_eq_false, beq_iff_eq]
    exact h2
  simp [usersInsert, hA, hB]

/-- Every error the `Users` insert can raise is an integrity error
(SQLSTATE class 23), hence caught by `except psycopg2.IntegrityError`. -/
lemma usersInsert_error_integrity (s : DBState) (un em : Option String)
    (ph : BcryptHash) (fn ln : Option String) (e : PyErr)
    (h : usersInsert s un em ph fn ln = .error e) :
    e.isIntegrityError = true := by
  cases e with
  | DatabaseError d => rfl
  | KeyError k =>
    unfold usersInsert at h
    cases un with
    | none => simp_all
    | some u =>
      cases em with
      | none => simp_all
      | some v =>
        by_cases hA : s.users.any (fun x => x.username == u) = true <;>
          by_cases hB : s.users.any (fun x => x.email == v) = true <;>
            simp_all

/-- Inversion of a successful `Users` insert. -/
lemma usersInsert_ok_inv (s : DBState) (un em : Option String)
    (ph : BcryptHash) (fn ln : Option String) (uid : Nat) (s' : DBState)
    (h : usersInsert s un em ph fn ln = .ok (uid, s')) :
    ∃ u v, un = some u ∧ em = some v ∧
      (∀ x ∈ s.users, x.username ≠ u) ∧ (∀ x ∈ s.users, x.email ≠ v) ∧
      uid = s.nextUserId ∧
      s' = { s with
        users := s.users ++ [⟨s.nextUserId, u, v, ph, fn, ln, s.now⟩],
        nextUserId := s.nextUserId + 1 } := by
  cases un with
  | none => simp [usersInsert] at h
  | some u =>
    cases em with
    | none => simp [usersInsert] at h
    | some v =>
      by_cases hA : s.users.any (fun x => x.username == u) = true
      · simp [usersInsert, hA] at h
      · by_cases hB : s.users.any (fun x => x.email == v) = true
        · simp [usersInsert, hA, hB] at h
        · simp only [usersInsert, hA, hB, Bool.false_eq_true, if_false,
            Except.ok.injEq, Prod.mk.injEq] at h
          obtain ⟨hu, hs⟩ := h
          refine ⟨u, v, rfl, rfl, ?_, ?_, hu.symm, hs.symm⟩
          · intro x hx hc
            exact hA (List.any_eq_true.mpr ⟨x, hx, beq_iff_eq.mpr hc⟩)
          · intro x hx hc
            exact hB (List.any_eq_true.mpr ⟨x, hx, beq_iff_eq.mpr hc⟩)

/-! ### Seed states used by concrete instantiations -/

/-- An empty store right after `init_db`: no rows, every SERIAL sequence
at 1. -/
def sEmpty : DBState := ⟨[], [], [], [], 1, 1, 1, 1, 0⟩

/-- The store after `create_user('alice', 'a@x.com', 'pw')` on `sEmpty`
(salt 7 drawn by bcrypt). -/
def sAlice : DBState :=
  { sEmpty with
    users := [⟨1, "alice", "a@x.com", hashpw "pw" 7, none, none, 0⟩],
    nextUserId := 2 }

/-- C1: on a fresh username/email pair `create_user` appends exactly one
user row and returns the generated id; on a username or email collision
it returns `None` and leaves the user rows exactly as they were (the
failed insert is rolled back). -/
theorem create_user_insert_or_conflict (s : DBState) (un em pw : String)
    (fn ln : Option String) (salt : Nat) :
    ((∀ u ∈ s.users, u.username ≠ un ∧ u.email ≠ em) →
      create_user (some un) (some em) pw fn ln salt s =
        .ok (some s.nextUserId, { s with
          users := s.users ++ [⟨s.nextUserId, un, em, hashpw pw salt, fn, ln, s.now⟩],
          nextUserId := s.nextUserId + 1 }))
    ∧ ((∃ u ∈ s.users, u.username = un ∨ u.email = em) →
      create_user (some un) (some em) pw fn ln salt s = .ok (none, s)) := by
  constructor
  · intro h
    have hins := usersInsert_ok s un em (hashpw pw salt) fn ln
      (fun u hu => (h u hu).1) (fun u hu => (h u hu).2)
    simp [create_user, hins]
  · rintro ⟨u, hu, hor⟩
    have herr : ∃ e, usersInsert s (some un) (some em) (hashpw pw salt) fn ln
        = .error e := by
      unfold usersInsert
      cases hor with
      | inl h1 =>
        have hA : s.users.any (fun x => x.username == un) = true :=
          List.any_eq_true.mpr ⟨u, hu, beq_iff_eq.mpr h1⟩
        simp [hA]
      | inr h2 =>
        by_cases hA : s.users.any (fun x => x.username == un) = true
        · simp [hA]
        · have hB : s.users.any (fun x => x.email == em) = true :=
            List.any_eq_true.mpr ⟨u, hu, beq_iff_eq.mpr h2⟩
          simp [hA, hB]
    obtain ⟨e, he⟩ := herr
    have hint := usersInsert_error_integrity s _ _ _ _ _ e he
    simp [create_user, he, hint]

/-- C1 witness: creating alice on the empty store returns id 1 and
appends her row; creating a second user with the same username returns
`None` and leaves the store at `sAlice`. -/
theorem create_user_insert_or_conflict_witness :
    create_user (some "alice") (some "a@x.com") "pw" none none 7 sEmpty =
      .ok (some 1, sAlice) ∧
    create_user (some "alice") (some "other@x.com") "pw2" none none 8 sAlice =
      .ok (none, sAlice) :=
  ⟨(create_user_insert_or_conflict sEmpty "alice" "a@x.com" "pw" none none 7).1
      (by decide),
   (create_user_insert_or_conflict sAlice "alice" "other@x.com" "pw2" none none 8).2
      ⟨⟨1, "alice", "a@x.com", hashpw "pw" 7, none, none, 0⟩, by decide, Or.inl rfl⟩⟩

/-- C2 counterexample: a NOT NULL violation (missing username) is *not*
propagated by `create_user` — the single statement raises an
integrity-class error, the same exception class
(`psycopg2.IntegrityError`) as the uniqueness conflict, so the
`except` clause catches it and converts it to `None`. -/
theorem create_user_notnull_caught_cex :
    usersInsert sEmpty none (some "a@x.com") (hashpw "pw" 7) none none =
      .error (.DatabaseError .NotNullViolation) ∧
    (PyErr.DatabaseError .NotNullViolation).isIntegrityError = true ∧
    create_user none (some "a@x.com") "pw" none none 7 sEmpty =
      .ok (none, sEmpty) :=
  ⟨rfl, rfl, rfl⟩

/-- C2 amended: the class caught by `create_user` is
`psycopg2.IntegrityError`, i.e. *every* integrity-constraint violation
of the insert (uniqueness, NOT NULL, ...), each converted to `None` with
rollback — not only the username/email uniqueness conflict; a successful
insert is committed and its id returned.  (Failures outside the driver's
integrity class — e.g. a `TypeError` from `password.encode` on a
malformed password — do still propagate: the clause catches only
integrity errors.) -/
theorem create_user_catch_amended (un em : Option String) (pw : String)
    (fn ln : Option String) (salt : Nat) (s : DBState) :
    (∀ e, usersInsert s un em (hashpw pw salt) fn ln = .error e →
      e.isIntegrityError = true ∧
      create_user un em pw fn ln salt s = .ok (none, s)) ∧
    (∀ uid s', usersInsert s un em (hashpw pw salt) fn ln = .ok (uid, s') →
      create_user un em pw fn ln salt s = .ok (some uid, s')) := by
  constructor
  · intro e he
    have hint := usersInsert_error_integrity s un em _ fn ln e he
    exact ⟨hint, by simp [create_user, he, hint]⟩
  · intro uid s' hok
    simp [create_user, hok]

/-- C2 witness: the amended statement applied to the concrete NOT NULL
failure (no username supplied) on the empty store. -/
theorem create_user_catch_amended_witness :
    create_user none (some "e@x.com") "pw" none none 1 sEmpty =
      .ok (none, sEmpty) :=
  ((create_user_catch_amended none (some "e@x.com") "pw" none none 1 sEmpty).1
    (.DatabaseError .NotNullViolation) rfl).2

/-- C3: after a successful `create_user` with password `pw`,
`authenticate_user` with the right password returns the full stored row
(id, username, email, password hash, names, creation time); with any
password failing the bcrypt check it returns `None`; and for a username
with no matching row it returns `None`.  `authenticate_user` is a pure
read — it takes the state and returns only the looked-up record, so the
store is unchanged by construction. -/
theorem authenticate_user_correct (s s' : DBState) (un em pw pw' un2 : String)
    (fn ln : Option String) (salt uid : Nat)
    (hc : create_user (some un) (some em) pw fn ln salt s = .ok (some uid, s')) :
    authenticate_user un pw s' =
      some ⟨uid, un, em, hashpw pw salt, fn, ln, s.now⟩ ∧
    (checkpw pw' (hashpw pw salt) = false → authenticate_user un pw' s' = none) ∧
    ((∀ u ∈ s.users, u.username ≠ un2) → authenticate_user un2 pw' s = none) := by
  have hthird : (∀ u ∈ s.users, u.username ≠ un2) →
      authenticate_user un2 pw' s = none := by
    intro hno
    have hfind : s.users.find? (fun u => u.username == un2) = none := by
      rw [List.find?_eq_none]
      intro x hx
      simp only [beq_iff_eq]
      exact hno x hx
    simp [authenticate_user, hfind]
  cases hins : usersInsert s (some un) (some em) (hashpw pw salt) fn ln with
  | error e =>
    have hint := usersInsert_error_integrity s _ _ _ _ _ e hins
    simp [create_user, hins, hint] at hc
  | ok p =>
    obtain ⟨uid', s''⟩ := p
    simp only [create_user, hins, Except.ok.injEq, Prod.mk.injEq] at hc
    obtain ⟨huid, hs⟩ := hc
    obtain ⟨u', v', hun, hem, hfr1, hfr2, huid', hs''⟩ :=
      usersInsert_ok_inv s _ _ _ _ _ uid' s'' hins
    obtain rfl : un = u' := Option.some.inj hun
    obtain rfl : em = v' := Option.some.inj hem
    obtain rfl : uid' = uid := Option.some.inj huid
    subst hs hs'' huid'
    have hfind : s.users.find? (fun u => u.username == un) = none := by
      rw [List.find?_eq_none]
      intro x hx
      simp only [beq_iff_eq]
      exact hfr1 x hx
    refine ⟨?_, ?_, hthird⟩
    · simp [authenticate_user, List.find?_append, hfind, checkpw, hashpw]
    · intro hbad
      simp [authenticate_user, List.find?_append, hfind, hbad]

/-- C3 witness: alice authenticates with her password and gets her full
row back; a wrong password and an unknown username both yield `None`. -/
theorem authenticate_user_correct_witness :
    authenticate_user "alice" "pw" sAlice =
      some ⟨1, "alice", "a@x.com", hashpw "pw" 7, none, none, 0⟩ ∧
    authenticate_user "alice" "wrong" sAlice = none ∧
    authenticate_user "bob" "pw" sEmpty = none := by
  have h := authenticate_user_correct sEmpty sAlice "alice" "a@x.com" "pw"
    "wrong" "bob" none none 7 1 rfl
  exact ⟨h.1, h.2.1 (by decide), h.2.2 (by decide)⟩

/-- The `IPOs` row the INSERT of `store_ipo` stores for dict `d` once the
mandatory lookups produced `n` and `sy`: each optional column holds the
defaulting-lookup value direct from the dict, `status` with the
dict-level default `'upcoming'`. -/
def storedIpoRow (s : DBState) (d : IpoData) (n sy : String) : IpoRow :=
  ⟨s.nextIpoId, n, sy, d.company_name.get none, d.offering_price.get none,
   d.total_shares.get none, d.ipo_date.get none,
   d.status.get (some "upcoming"), d.description.get none, s.now, s.now⟩

/-- C4: `store_ipo` on a dict with present, non-null `name` and `symbol`
appends exactly one row holding the submitted values (`status` being
`'upcoming'` when the key is not supplied) and returns `True`;
`get_ipo` on the new id returns that row; `get_ipo` on an id matching no
row returns `None`.  (`hfresh` is the SERIAL invariant: every stored id
is below the sequence head.) -/
theorem store_get_ipo_roundtrip (s : DBState) (d : IpoData) (n sy : String)
    (hn : d.name = Entry.val (some n)) (hsy : d.symbol = Entry.val (some sy))
    (hfresh : ∀ r ∈ s.ipos, r.ipo_id < s.nextIpoId) :
    store_ipo d s = .ok (true, { s with
      ipos := s.ipos ++ [storedIpoRow s d n sy],
      nextIpoId := s.nextIpoId + 1 }) ∧
    get_ipo s.nextIpoId { s with
      ipos := s.ipos ++ [storedIpoRow s d n sy],
      nextIpoId := s.nextIpoId + 1 } = some (storedIpoRow s d n sy) ∧
    (storedIpoRow s d n sy).name = n ∧
    (storedIpoRow s d n sy).symbol = sy ∧
    (d.status = Entry.absent → (storedIpoRow s d n sy).status = some "upcoming") ∧
    (∀ i, (∀ r ∈ s.ipos, r.ipo_id ≠ i) → get_ipo i s = none) := by
  refine ⟨?_, ?_, rfl, rfl, ?_, ?_⟩
  · simp [store_ipo, hn, hsy, Entry.item, iposInsert, storedIpoRow]
  · have hnone : s.ipos.find? (fun i => i.ipo_id == s.nextIpoId) = none := by
      rw [List.find?_eq_none]
      intro x hx
      simp only [beq_iff_eq]
      exact Nat.ne_of_lt (hfresh x hx)
    simp [get_ipo, List.find?_append, hnone, storedIpoRow]
  · intro habs
    simp [storedIpoRow, habs, Entry.get]
  · intro i hno
    have hnone : s.ipos.find? (fun r => r.ipo_id == i) = none := by
      rw [List.find?_eq_none]
      intro x hx
      simp only [beq_iff_eq]
      exact hno x hx
    simp [get_ipo, hnone]

/-- The dict `{'name': 'Acme', 'symbol': 'ACM', 'ipo_date': 100}`. -/
def dIpo : IpoData :=
  ⟨.val (some "Acme"), .val (some "ACM"), .absent, .absent, .absent,
   .val (some 100), .absent, .absent⟩

/-- C4 witness: storing `dIpo` on the empty store then fetching id 1
returns the stored row (status defaulted to `'upcoming'`); fetching the
unused id 5 returns `None`. -/
theorem store_get_ipo_roundtrip_witness :
    store_ipo dIpo sEmpty = .ok (true, { sEmpty with
      ipos := [storedIpoRow sEmpty dIpo "Acme" "ACM"], nextIpoId := 2 }) ∧
    get_ipo 1 { sEmpty with
      ipos := [storedIpoRow sEmpty dIpo "Acme" "ACM"], nextIpoId := 2 } =
      some (storedIpoRow sEmpty dIpo "Acme" "ACM") ∧
    (storedIpoRow sEmpty dIpo "Acme" "ACM").status = some "upcoming" ∧
    get_ipo 5 sEmpty = none := by
  have h := store_get_ipo_roundtrip sEmpty dIpo "Acme" "ACM" rfl rfl (by decide)
  exact ⟨h.1, h.2.1, h.2.2.2.2.1 rfl, h.2.2.2.2.2 5 (by decide)⟩

/-- C10: only `name` and `symbol` are mandatory in `store_ipo` — a dict
missing `name` raises `KeyError 'name'` before anything is inserted, and
a dict with `name` present but `symbol` missing raises
`KeyError 'symbol'`, the store unchanged in both cases (`applyOp`
rollback); and a dict mapping `status` to `None` stores a NULL status —
`d.get('status', 'upcoming')` returns the present `None`, so the
`'upcoming'` default does not apply. -/
theorem store_ipo_required_keys_null_status (s : DBState) (d : IpoData) :
    (d.name = Entry.absent →
      store_ipo d s = .error (.KeyError "name") ∧
      applyOp (Op.opStoreIpo d) s = s) ∧
    (∀ v, d.name = Entry.val v → d.symbol = Entry.absent →
      store_ipo d s = .error (.KeyError "symbol") ∧
      applyOp (Op.opStoreIpo d) s = s) ∧
    (∀ n sy, d.name = Entry.val (some n) → d.symbol = Entry.val (some sy) →
      d.status = Entry.val none →
      store_ipo d s = .ok (true, { s with
        ipos := s.ipos ++ [storedIpoRow s d n sy],
        nextIpoId := s.nextIpoId + 1 }) ∧
      (storedIpoRow s d n sy).status = none) := by
  refine ⟨?_, ?_, ?_⟩
  · intro habs
    have he : store_ipo d s = .error (.KeyError "name") := by
      simp [store_ipo, habs, Entry.item]
    exact ⟨he, by simp [applyOp, he]⟩
  · intro v hv habs
    have he : store_ipo d s = .error (.KeyError "symbol") := by
      simp [store_ipo, hv, habs, Entry.item]
    exact ⟨he, by simp [applyOp, he]⟩
  · intro n sy hn hsy hst
    refine ⟨?_, ?_⟩
    · simp [store_ipo, hn, hsy, Entry.item, iposInsert, storedIpoRow]
    · simp [storedIpoRow, hst, Entry.get]

/-- The dict `{'symbol': 'ACM'}` (no name). -/
def dNoName : IpoData :=
  ⟨.absent, .val (some "ACM"), .absent, .absent, .absent, .absent, .absent, .absent⟩

/-- The dict `{'name': 'Acme'}` (no symbol). -/
def dNoSymbol : IpoData :=
  ⟨.val (some "Acme"), .absent, .absent, .absent, .absent, .absent, .absent, .absent⟩

/-- The dict `{'name': 'Acme', 'symbol': 'ACM', 'status': None}`. -/
def dNullStatus : IpoData :=
  ⟨.val (some "Acme"), .val (some "ACM"), .absent, .absent, .absent, .absent,
   .val none, .absent⟩

/-- C10 witness: the three arms at concrete dicts on the empty store. -/
theorem store_ipo_required_keys_null_status_witness :
    store_ipo dNoName sEmpty = .error (.KeyError "name") ∧
    applyOp (Op.opStoreIpo dNoName) sEmpty = sEmpty ∧
    store_ipo dNoSymbol sEmpty = .error (.KeyError "symbol") ∧
    (storedIpoRow sEmpty dNullStatus "Acme" "ACM").status = none := by
  have h1 := (store_ipo_required_keys_null_status sEmpty dNoName).1 rfl
  have h2 := (store_ipo_required_keys_null_status sEmpty dNoSymbol).2.1
    (some "Acme") rfl rfl
  have h3 := (store_ipo_required_keys_null_status sEmpty dNullStatus).2.2
    "Acme" "ACM" rfl rfl rfl
  exact ⟨h1.1, h1.2, h2.1, h3.2⟩

/-- Membership in the watchlist/IPO join result set. -/
lemma mem_watchJoin (u : Nat) (s : DBState) (r : WatchJoinRow) :
    r ∈ watchJoin u s ↔ ∃ e ∈ s.watchlist, e.user_id = u ∧
      ∃ i ∈ s.ipos, i.ipo_id = e.ipo_id ∧
        r = ⟨e.watchlist_id, e.expiry_date, i⟩ := by
  simp only [watchJoin, List.mem_flatMap, List.mem_filter, List.mem_map,
    beq_iff_eq]
  constructor
  · rintro ⟨e, ⟨he, heu⟩, i, ⟨hi, hii⟩, hr⟩
    exact ⟨e, he, heu, i, hi, hii, hr.symm⟩
  · rintro ⟨e, he, heu, i, hi, hii, hr⟩
    exact ⟨e, ⟨he, heu⟩, i, ⟨hi, hii⟩, hr.symm⟩

/-- C6: `remove_from_watchlist` returns `True` unconditionally, touches
no other table, deletes exactly the watchlist rows matching *both* the
row id and the owning user id (so every row not matching both — in
particular any row of another user — is kept), and after removal the
owning user's listing contains no row with the removed id. -/
theorem remove_from_watchlist_spec (s : DBState) (wid uid : Nat) :
    (remove_from_watchlist wid uid s).1 = true ∧
    (remove_from_watchlist wid uid s).2.users = s.users ∧
    (remove_from_watchlist wid uid s).2.ipos = s.ipos ∧
    (remove_from_watchlist wid uid s).2.investments = s.investments ∧
    (remove_from_watchlist wid uid s).2.watchlist =
      s.watchlist.filter
        (fun e => !(e.watchlist_id == wid && e.user_id == uid)) ∧
    (∀ e ∈ s.watchlist, ¬(e.watchlist_id = wid ∧ e.user_id = uid) →
      e ∈ (remove_from_watchlist wid uid s).2.watchlist) ∧
    (∀ r ∈ get_user_watchlist uid (remove_from_watchlist wid uid s).2,
      r.watchlist_id ≠ wid) := by
  refine ⟨rfl, rfl, rfl, rfl, rfl, ?_, ?_⟩
  · intro e he hne
    simp only [remove_from_watchlist, List.mem_filter]
    refine ⟨he, ?_⟩
    by_cases h1 : e.watchlist_id = wid
    · by_cases h2 : e.user_id = uid
      · exact absurd ⟨h1, h2⟩ hne
      · simp [h1, h2]
    · simp [h1]
  · intro r hr
    have hr' : r ∈ watchJoin uid (remove_from_watchlist wid uid s).2 :=
      ((List.perm_insertionSort _ _).mem_iff).mp hr
    rw [mem_watchJoin] at hr'
    obtain ⟨e, he, heu, i, _, _, hrEq⟩ := hr'
    simp only [remove_from_watchlist, List.mem_filter] at he
    obtain ⟨_, hkeep⟩ := he
    intro hbad
    have hid : e.watchlist_id = wid := by
      rw [hrEq] at hbad
      exact hbad
    simp only [hid, heu, beq_self_eq_true, Bool.and_self, Bool.not_true] at hkeep
    exact Bool.false_ne_true hkeep

/-- A store with two users (alice id 1, bob id 2), one IPO (id 1), and
one watchlist entry (id 1) owned by alice. -/
def sWatch : DBState :=
  { sEmpty with
    users := [⟨1, "alice", "a@x.com", hashpw "pw" 7, none, none, 0⟩,
              ⟨2, "bob", "b@x.com", hashpw "pw2" 9, none, none, 0⟩],
    ipos := [⟨1, "Acme", "ACM", none, none, none, some 100, some "upcoming",
             none, 0, 0⟩],
    watchlist := [⟨1, 1, 1, none⟩],
    nextUserId := 3, nextIpoId := 2, nextWatchlistId := 2 }

/-- C6 witness: bob (id 2) cannot remove alice's entry — it stays and the
call still returns `True`; alice's own removal empties her listing of
that id. -/
theorem remove_from_watchlist_spec_witness :
    (remove_from_watchlist 1 2 sWatch).1 = true ∧
    (⟨1, 1, 1, none⟩ : WatchRow) ∈ (remove_from_watchlist 1 2 sWatch).2.watchlist ∧
    (∀ r ∈ get_user_watchlist 1 (remove_from_watchlist 1 1 sWatch).2,
      r.watchlist_id ≠ 1) :=
  ⟨(remove_from_watchlist_spec sWatch 1 2).1,
   (remove_from_watchlist_spec sWatch 1 2).2.2.2.2.2.1 ⟨1, 1, 1, none⟩
     (by decide) (by decide),
   (remove_from_watchlist_spec sWatch 1 1).2.2.2.2.2.2⟩

/-- C7: `update_investment_status` returns `True` unconditionally,
touches no other table, and rewrites the investment table pointwise:
a row matching *both* ids gets `status` replaced (and `sold_date` too
exactly when one was supplied), every other row — in particular every
row of a non-owning user — is unchanged. -/
theorem update_investment_status_spec (s : DBState) (iid uid : Nat)
    (st : Option String) (sd : Option Int) :
    (update_investment_status iid uid st sd s).1 = true ∧
    (update_investment_status iid uid st sd s).2.users = s.users ∧
    (update_investment_status iid uid st sd s).2.ipos = s.ipos ∧
    (update_investment_status iid uid st sd s).2.watchlist = s.watchlist ∧
    (sd = none →
      (update_investment_status iid uid st sd s).2.investments =
        s.investments.map (fun r =>
          if r.investment_id == iid && r.user_id == uid then
            { r with status := st }
          else r)) ∧
    (sd.isSome = true →
      (update_investment_status iid uid st sd s).2.investments =
        s.investments.map (fun r =>
          if r.investment_id == iid && r.user_id == uid then
            { r with status := st, sold_date := sd }
          else r)) ∧
    (∀ r ∈ s.investments, r.user_id ≠ uid →
      r ∈ (update_investment_status iid uid st sd s).2.investments) := by
  cases sd with
  | none =>
    refine ⟨rfl, rfl, rfl, rfl, fun _ => rfl, by simp, ?_⟩
    intro r hr hru
    have hcond : (r.investment_id == iid && r.user_id == uid) = false := by
      simp [hru]
    have : (fun r =>
        if r.investment_id == iid && r.user_id == uid then
          { r with status := st }
        else r) r = r := by
      simp [hcond]
    simp only [update_investment_status, Option.isSome_none,
      Bool.false_eq_true, if_false]
    exact this ▸ List.mem_map_of_mem _ hr
  | some v =>
    refine ⟨rfl, rfl, rfl, rfl, by simp, fun _ => rfl, ?_⟩
    intro r hr hru
    have hcond : (r.investment_id == iid && r.user_id == uid) = false := by
      simp [hru]
    have : (fun r =>
        if r.investment_id == iid && r.user_id == uid then
          { r with status := st, sold_date := some v }
        else r) r = r := by
      simp [hcond]
    simp only [update_investment_status, Option.isSome_some, if_true]
    exact this ▸ List.mem_map_of_mem _ hr

/-- `sWatch` with one pending investment (id 1) of alice in IPO 1. -/
def sInv : DBState :=
  { sWatch with
    investments := [⟨1, 1, 1, 10, 100, none, some "pending"⟩],
    nextInvestmentId := 2 }

/-- C7 witness: alice marks her investment sold with a date — exactly
`status` and `sold_date` change; bob's attempt with the same investment
id changes nothing, and both calls return `True`. -/
theorem update_investment_status_spec_witness :
    (update_investment_status 1 1 (some "sold") (some 5) sInv).1 = true ∧
    (update_investment_status 1 1 (some "sold") (some 5) sInv).2.investments =
      [⟨1, 1, 1, 10, 100, some 5, some "sold"⟩] ∧
    (⟨1, 1, 1, 10, 100, none, some "pending"⟩ : InvestmentRow) ∈
      (update_investment_status 1 2 (some "sold") none sInv).2.investments := by
  refine ⟨(update_investment_status_spec sInv 1 1 (some "sold") (some 5)).1, ?_, ?_⟩
  · rw [(update_investment_status_spec sInv 1 1 (some "sold") (some 5)).2.2.2.2.2.1 rfl]
    rfl
  · exact (update_investment_status_spec sInv 1 2 (some "sold") none).2.2.2.2.2.2
      ⟨1, 1, 1, 10, 100, none, some "pending"⟩ (by decide) (by decide)

/-- `sWatch` with the store clock advanced to 42 (the would-be
`CURRENT_TIMESTAMP` of the next insert). -/
def sClock : DBState := { sWatch with now := 42 }

/-- C8 counterexample: `add_investment` with `sold_date` omitted stores a
NULL `sold_date`, not the creation time — the INSERT lists the
`sold_date` column and passes NULL (the Python default `None`), so the
column's `DEFAULT CURRENT_TIMESTAMP` never applies. -/
theorem add_investment_sold_date_cex :
    add_investment 1 1 10 100 none (some "pending") sClock =
      .ok (1, { sClock with
        investments := [⟨1, 1, 1, 10, 100, none, some "pending"⟩],
        nextInvestmentId := 2 }) ∧
    (⟨1, 1, 1, 10, 100, none, some "pending"⟩ : InvestmentRow).sold_date ≠
      some sClock.now :=
  ⟨rfl, by decide⟩

/-- C8 amended: for every `add_investment` call in which `sold_date` is
omitted (Python default `None`), the stored row's `sold_date` is NULL
(absent) — the store's current-timestamp default applies only to an
INSERT that omits the column, which `add_investment` never does. -/
theorem add_investment_nullsold_amended (s : DBState) (uid iid : Nat)
    (sh pp : Int) (st : Option String)
    (hu : ∃ u ∈ s.users, u.user_id = uid)
    (hi : ∃ i ∈ s.ipos, i.ipo_id = iid) :
    add_investment uid iid sh pp none st s =
      .ok (s.nextInvestmentId, { s with
        investments := s.investments ++
          [⟨s.nextInvestmentId, uid, iid, sh, pp, none, st⟩],
        nextInvestmentId := s.nextInvestmentId + 1 }) := by
  obtain ⟨u, hu1, hu2⟩ := hu
  obtain ⟨i, hi1, hi2⟩ := hi
  have hA : s.users.any (fun x => x.user_id == uid) = true :=
    List.any_eq_true.mpr ⟨u, hu1, beq_iff_eq.mpr hu2⟩
  have hB : s.ipos.any (fun x => x.ipo_id == iid) = true :=
    List.any_eq_true.mpr ⟨i, hi1, beq_iff_eq.mpr hi2⟩
  simp [add_investment, hA, hB]

/-- C8 witness: the amended statement at the concrete store `sClock`. -/
theorem add_investment_nullsold_amended_witness :
    add_investment 1 1 10 100 none (some "pending") sClock =
      .ok (1, { sClock with
        investments := [⟨1, 1, 1, 10, 100, none, some "pending"⟩],
        nextInvestmentId := 2 }) :=
  add_investment_nullsold_amended sClock 1 1 10 100 (some "pending")
    ⟨⟨1, "alice", "a@x.com", hashpw "pw" 7, none, none, 0⟩, by decide, rfl⟩
    ⟨⟨1, "Acme", "ACM", none, none, none, some 100, some "upcoming", none, 0, 0⟩,
      by decide, rfl⟩

/-- The NULLS-LAST ascending comparison is total. -/
lemma dateLE_total (a b : Option Int) : dateLE a b = true ∨ dateLE b a = true := by
  cases a <;> cases b <;> simp [dateLE] <;> omega

/-- The NULLS-LAST ascending comparison is transitive. -/
lemma dateLE_trans (a b c : Option Int) (h1 : dateLE a b = true)
    (h2 : dateLE b c = true) : dateLE a c = true := by
  cases a <;> cases b <;> cases c <;> simp_all [dateLE] <;> omega

instance : IsTotal WatchJoinRow watchDateLE :=
  ⟨fun r1 r2 => dateLE_total r1.ipo.ipo_date r2.ipo.ipo_date⟩

instance : IsTrans WatchJoinRow watchDateLE :=
  ⟨fun r1 r2 r3 => dateLE_trans r1.ipo.ipo_date r2.ipo.ipo_date r3.ipo.ipo_date⟩

/-- Inversion of a successful watchlist insert: both foreign keys were
satisfied, the returned id is the sequence head, and the new state is
the old one with the row appended. -/
lemma add_to_watchlist_ok_inv (s : DBState) (u i : Nat) (ed : Option Int)
    (w : Nat) (s' : DBState)
    (h : add_to_watchlist u i ed s = .ok (w, s')) :
    w = s.nextWatchlistId ∧
    s' = { s with
      watchlist := s.watchlist ++ [⟨s.nextWatchlistId, u, i, ed⟩],
      nextWatchlistId := s.nextWatchlistId + 1 } ∧
    (∃ x ∈ s.users, x.user_id = u) ∧ (∃ x ∈ s.ipos, x.ipo_id = i) := by
  unfold add_to_watchlist at h
  by_cases hA : s.users.any (fun x => x.user_id == u) = true
  · by_cases hB : s.ipos.any (fun x => x.ipo_id == i) = true
    · simp only [hA, hB, if_true, Except.ok.injEq, Prod.mk.injEq] at h
      have hA' := List.any_eq_true.mp hA
      have hB' := List.any_eq_true.mp hB
      simp only [beq_iff_eq] at hA' hB'
      exact ⟨h.1.symm, h.2.symm, hA', hB'⟩
    · simp [hA, hB] at h
  · simp [hA] at h

/-- C5: adding, for one user, two watchlist entries that reference IPOs
with dates `d1 < d2` (on a store whose stored watchlist ids respect the
SERIAL invariant and whose IPO rows with those ids carry those dates),
`get_user_watchlist` returns exactly that user's watchlist rows joined
with their IPO details — a permutation of the join result set, each row
stemming from one of the user's entries — sorted ascending by IPO date,
with the two new entries present and the `d1` entry at a strictly
earlier position than the `d2` entry. -/
theorem get_user_watchlist_ordered
    (s s1 s2 : DBState) (u i1 i2 w1 w2 : Nat) (d1 d2 : Int) (e1 e2 : Option Int)
    (hfreshW : ∀ e ∈ s.watchlist, e.watchlist_id < s.nextWatchlistId)
    (hd1 : ∀ x ∈ s.ipos, x.ipo_id = i1 → x.ipo_date = some d1)
    (hd2 : ∀ x ∈ s.ipos, x.ipo_id = i2 → x.ipo_date = some d2)
    (hlt : d1 < d2)
    (hadd1 : add_to_watchlist u i1 e1 s = .ok (w1, s1))
    (hadd2 : add_to_watchlist u i2 e2 s1 = .ok (w2, s2)) :
    (get_user_watchlist u s2).Perm (watchJoin u s2) ∧
    List.Sorted watchDateLE (get_user_watchlist u s2) ∧
    (∀ r ∈ get_user_watchlist u s2, ∃ e ∈ s2.watchlist,
      e.user_id = u ∧ r.watchlist_id = e.watchlist_id) ∧
    (∃ r ∈ get_user_watchlist u s2, r.watchlist_id = w1 ∧
      r.ipo.ipo_date = some d1) ∧
    (∃ r ∈ get_user_watchlist u s2, r.watchlist_id = w2 ∧
      r.ipo.ipo_date = some d2) ∧
    (∀ p q, ∀ hp : p < (get_user_watchlist u s2).length,
      ∀ hq : q < (get_user_watchlist u s2).length,
      ((get_user_watchlist u s2).get ⟨p, hp⟩).watchlist_id = w1 →
      ((get_user_watchlist u s2).get ⟨q, hq⟩).watchlist_id = w2 → p < q) := by
  obtain ⟨hw1, hs1eq, -, hi1ex⟩ := add_to_watchlist_ok_inv s u i1 e1 w1 s1 hadd1
  subst hs1eq
  obtain ⟨hw2, hs2eq, -, hi2ex⟩ := add_to_watchlist_ok_inv _ u i2 e2 w2 s2 hadd2
  dsimp only at hw2 hs2eq hi2ex
  subst hw1
  subst hw2
  have hW : s2.watchlist =
      s.watchlist ++ [⟨s.nextWatchlistId, u, i1, e1⟩] ++
        [⟨s.nextWatchlistId + 1, u, i2, e2⟩] := by
    rw [hs2eq]
  have hI : s2.ipos = s.ipos := by rw [hs2eq]
  have hperm : (get_user_watchlist u s2).Perm (watchJoin u s2) :=
    List.perm_insertionSort watchDateLE _
  have hsort : List.Sorted watchDateLE (get_user_watchlist u s2) :=
    List.sorted_insertionSort watchDateLE _
  have hA : ∀ r ∈ get_user_watchlist u s2,
      r.watchlist_id = s.nextWatchlistId → r.ipo.ipo_date = some d1 := by
    intro r hr hid
    have hr' := (hperm.mem_iff).mp hr
    rw [mem_watchJoin] at hr'
    obtain ⟨e, he, heu, i, hi, hii, hrEq⟩ := hr'
    have heid : e.watchlist_id = s.nextWatchlistId := by
      rw [hrEq] at hid
      exact hid
    rw [hW] at he
    rw [hI] at hi
    rcases List.mem_append.mp he with he' | he2
    · rcases List.mem_append.mp he' with hsw | he1
      · exact absurd heid (Nat.ne_of_lt (hfreshW e hsw))
      · have heE : e = ⟨s.nextWatchlistId, u, i1, e1⟩ :=
          List.eq_of_mem_singleton he1
        rw [hrEq]
        exact hd1 i hi (by rw [hii, heE])
    · have heE : e = ⟨s.nextWatchlistId + 1, u, i2, e2⟩ :=
        List.eq_of_mem_singleton he2
      rw [heE] at heid
      exact absurd heid (by simp)
  have hB : ∀ r ∈ get_user_watchlist u s2,
      r.watchlist_id = s.nextWatchlistId + 1 → r.ipo.ipo_date = some d2 := by
    intro r hr hid
    have hr' := (hperm.mem_iff).mp hr
    rw [mem_watchJoin] at hr'
    obtain ⟨e, he, heu, i, hi, hii, hrEq⟩ := hr'
    have heid : e.watchlist_id = s.nextWatchlistId + 1 := by
      rw [hrEq] at hid
      exact hid
    rw [hW] at he
    rw [hI] at hi
    rcases List.mem_append.mp he with he' | he2
    · rcases List.mem_append.mp he' with hsw | he1
      · have := hfreshW e hsw
        omega
      · have heE : e = ⟨s.nextWatchlistId, u, i1, e1⟩ :=
          List.eq_of_mem_singleton he1
        rw [heE] at heid
        exact absurd heid (by simp)
    · have heE : e = ⟨s.nextWatchlistId + 1, u, i2, e2⟩ :=
        List.eq_of_mem_singleton he2
      rw [hrEq]
      exact hd2 i hi (by rw [hii, heE])
  refine ⟨hperm, hsort, ?_, ?_, ?_, ?_⟩
  · intro r hr
    have hr' := (hperm.mem_iff).mp hr
    rw [mem_watchJoin] at hr'
    obtain ⟨e, he, heu, i, hi, hii, hrEq⟩ := hr'
    exact ⟨e, he, heu, by rw [hrEq]⟩
  · obtain ⟨x, hx, hxi⟩ := hi1ex
    refine ⟨⟨s.nextWatchlistId, e1, x⟩, ?_, rfl, hd1 x hx hxi⟩
    rw [hperm.mem_iff, mem_watchJoin]
    refine ⟨⟨s.nextWatchlistId, u, i1, e1⟩, ?_, rfl, x, ?_, hxi, rfl⟩
    · rw [hW]
      simp
    · rw [hI]
      exact hx
  · obtain ⟨x, hx, hxi⟩ := hi2ex
    refine ⟨⟨s.nextWatchlistId + 1, e2, x⟩, ?_, rfl, hd2 x hx hxi⟩
    rw [hperm.mem_iff, mem_watchJoin]
    refine ⟨⟨s.nextWatchlistId + 1, u, i2, e2⟩, ?_, rfl, x, ?_, hxi, rfl⟩
    · rw [hW]
      simp
    · rw [hI]
      exact hx
  · intro p q hp hq hpw hqw
    have hps := hA _ (List.get_mem _ _ _) hpw
    have hqs := hB _ (List.get_mem _ _ _) hqw
    by_contra hnp
    push_neg at hnp
    rcases Nat.eq_or_lt_of_le hnp with heq | hqp
    · subst heq
      have : s.nextWatchlistId = s.nextWatchlistId + 1 := hpw.symm.trans hqw
      omega
    · have hpair := (List.pairwise_iff_get.mp hsort) ⟨q, hq⟩ ⟨p, hp⟩
        (by exact hqp)
      unfold watchDateLE at hpair
      rw [hqs, hps] at hpair
      simp only [dateLE, decide_eq_true_eq] at hpair
      omega

/-- A store with alice (id 1) and two IPOs: id 1 dated 100, id 2
dated 200; empty watchlist. -/
def sBase : DBState :=
  { sEmpty with
    users := [⟨1, "alice", "a@x.com", hashpw "pw" 7, none, none, 0⟩],
    ipos := [⟨1, "Acme", "ACM", none, none, none, some 100, some "upcoming",
             none, 0, 0⟩,
             ⟨2, "Beta", "BET", none, none, none, some 200, some "upcoming",
             none, 0, 0⟩],
    nextUserId := 2, nextIpoId := 3 }

/-- `sBase` after alice watches IPO 1. -/
def sMid : DBState :=
  { sBase with watchlist := [⟨1, 1, 1, none⟩], nextWatchlistId := 2 }

/-- `sMid` after alice also watches IPO 2. -/
def sTwo : DBState :=
  { sBase with
    watchlist := [⟨1, 1, 1, none⟩, ⟨2, 1, 2, none⟩],
    nextWatchlistId := 3 }

/-- C5 witness: after alice watches IPO 1 (date 100) then IPO 2
(date 200), her listing is a sorted permutation of the join and contains
both entries with their dates. -/
theorem get_user_watchlist_ordered_witness :
    (get_user_watchlist 1 sTwo).Perm (watchJoin 1 sTwo) ∧
    List.Sorted watchDateLE (get_user_watchlist 1 sTwo) ∧
    (∃ r ∈ get_user_watchlist 1 sTwo, r.watchlist_id = 1 ∧
      r.ipo.ipo_date = some 100) ∧
    (∃ r ∈ get_user_watchlist 1 sTwo, r.watchlist_id = 2 ∧
      r.ipo.ipo_date = some 200) := by
  have h := get_user_watchlist_ordered sBase sMid sTwo 1 1 2 1 2 100 200
    none none (by decide) (by decide) (by decide) (by decide) rfl rfl
  exact ⟨h.1, h.2.1, h.2.2.2.1, h.2.2.2.2.1⟩

/-- State shape after a committed `create_user`: either the caught-and-
rolled-back path (state untouched) or exactly one appended user row,
every other table untouched. -/
lemma create_user_ok_state (un em : Option String) (pw : String)
    (fn ln : Option String) (salt : Nat) (s : DBState) (opt : Option Nat)
    (s' : DBState)
    (h : create_user un em pw fn ln salt s = .ok (opt, s')) :
    s' = s ∨ ∃ r, s'.users = s.users ++ [r] ∧ s'.ipos = s.ipos ∧
      s'.watchlist = s.watchlist ∧ s'.investments = s.investments := by
  cases hins : usersInsert s un em (hashpw pw salt) fn ln with
  | error e =>
    have hint := usersInsert_error_integrity s un em _ fn ln e hins
    simp only [create_user, hins, hint, if_true, Except.ok.injEq,
      Prod.mk.injEq] at h
    exact Or.inl h.2.symm
  | ok p =>
    obtain ⟨uid, s''⟩ := p
    simp only [create_user, hins, Except.ok.injEq, Prod.mk.injEq] at h
    obtain ⟨-, hs⟩ := h
    obtain ⟨un', em', -, -, -, -, -, hshape⟩ :=
      usersInsert_ok_inv s un em _ fn ln uid s'' hins
    have hfin : s' = { s with
        users := s.users ++ [⟨s.nextUserId, un', em', hashpw pw salt, fn, ln, s.now⟩],
        nextUserId := s.nextUserId + 1 } := hs.symm.trans hshape
    subst hfin
    exact Or.inr ⟨_, rfl, rfl, rfl, rfl⟩

/-- Inversion of a successful `store_ipo`: exactly one appended IPO row,
every other table untouched. -/
lemma store_ipo_ok_inv (d : IpoData) (s : DBState) (b : Bool) (s' : DBState)
    (h : store_ipo d s = .ok (b, s')) :
    ∃ n sy, s' = { s with
      ipos := s.ipos ++ [storedIpoRow s d n sy],
      nextIpoId := s.nextIpoId + 1 } := by
  unfold store_ipo at h
  cases hn : d.name with
  | absent =>
    rw [hn] at h
    simp [Entry.item] at h
  | val v =>
    rw [hn] at h
    cases hsy : d.symbol with
    | absent =>
      rw [hsy] at h
      simp [Entry.item] at h
    | val v2 =>
      rw [hsy] at h
      simp only [Entry.item] at h
      cases v with
      | none => simp [iposInsert] at h
      | some n =>
        cases v2 with
        | none => simp [iposInsert] at h
        | some sy =>
          simp only [iposInsert, Except.ok.injEq, Prod.mk.injEq] at h
          exact ⟨n, sy, h.2.symm⟩

/-- Inversion of a successful `add_investment`: exactly one appended
investment row, every other table untouched. -/
lemma add_investment_ok_inv (u i : Nat) (sh pp : Int) (sd : Option Int)
    (st : Option String) (s : DBState) (iid : Nat) (s' : DBState)
    (h : add_investment u i sh pp sd st s = .ok (iid, s')) :
    iid = s.nextInvestmentId ∧
    s' = { s with
      investments := s.investments ++
        [⟨s.nextInvestmentId, u, i, sh, pp, sd, st⟩],
      nextInvestmentId := s.nextInvestmentId + 1 } := by
  unfold add_investment at h
  by_cases hA : s.users.any (fun x => x.user_id == u) = true
  · by_cases hB : s.ipos.any (fun x => x.ipo_id == i) = true
    · simp only [hA, hB, if_true, Except.ok.injEq, Prod.mk.injEq] at h
      exact ⟨h.1.symm, h.2.symm⟩
    · simp [hA, hB] at h
  · simp [hA] at h

/-- The C9 conjuncts hold trivially for an operation that leaves the
state untouched. -/
lemma opFrame_of_fix (o : Op) (s : DBState) (hid : applyOp o s = s) :
    ((applyOp o s).users = s.users ∨
      ∃ r, (applyOp o s).users = s.users ++ [r]) ∧
    ((applyOp o s).ipos = s.ipos ∨
      ∃ r, (applyOp o s).ipos = s.ipos ++ [r]) ∧
    (∀ r ∈ s.investments, ∃ r' ∈ (applyOp o s).investments,
      r'.investment_id = r.investment_id ∧ r'.user_id = r.user_id ∧
      r'.ipo_id = r.ipo_id ∧ r'.shares_purchased = r.shares_purchased ∧
      r'.purchase_price = r.purchase_price) ∧
    (∀ e ∈ s.watchlist, e ∉ (applyOp o s).watchlist →
      o = Op.opRemoveWatch e.watchlist_id e.user_id) := by
  rw [hid]
  exact ⟨Or.inl rfl, Or.inl rfl,
    fun r hr => ⟨r, hr, rfl, rfl, rfl, rfl, rfl⟩,
    fun e he hne => absurd he hne⟩

/-- C9: across every operation of the layer, user rows and IPO rows are
append-only (existing rows, `IPOs.updated_at` included, are never
rewritten and never deleted); investment rows are never deleted and keep
their identity and immutable fields (`investment_id`, `user_id`,
`ipo_id`, `shares_purchased`, `purchase_price`); and the only operation
that ever removes a watchlist row is `remove_from_watchlist` called with
that row's own id and owning user id. -/
theorem ops_immutability (o : Op) (s : DBState) :
    ((applyOp o s).users = s.users ∨
      ∃ r, (applyOp o s).users = s.users ++ [r]) ∧
    ((applyOp o s).ipos = s.ipos ∨
      ∃ r, (applyOp o s).ipos = s.ipos ++ [r]) ∧
    (∀ r ∈ s.investments, ∃ r' ∈ (applyOp o s).investments,
      r'.investment_id = r.investment_id ∧ r'.user_id = r.user_id ∧
      r'.ipo_id = r.ipo_id ∧ r'.shares_purchased = r.shares_purchased ∧
      r'.purchase_price = r.purchase_price) ∧
    (∀ e ∈ s.watchlist, e ∉ (applyOp o s).watchlist →
      o = Op.opRemoveWatch e.watchlist_id e.user_id) := by
  cases o with
  | opInit => exact opFrame_of_fix _ _ rfl
  | opAuthenticate un pw => exact opFrame_of_fix _ _ rfl
  | opGetIpo i => exact opFrame_of_fix _ _ rfl
  | opGetWatch u => exact opFrame_of_fix _ _ rfl
  | opGetInvestments u => exact opFrame_of_fix _ _ rfl
  | opCreateUser un em pw fn ln salt =>
    cases hres : create_user un em pw fn ln salt s with
    | error e => exact opFrame_of_fix _ _ (by simp [applyOp, hres])
    | ok p =>
      obtain ⟨opt, s'⟩ := p
      have happ : applyOp (Op.opCreateUser un em pw fn ln salt) s = s' := by
        simp [applyOp, hres]
      rcases create_user_ok_state un em pw fn ln salt s opt s' hres with
        hsame | ⟨r, hU, hI, hW, hInv⟩
      · exact opFrame_of_fix _ _ (happ.trans hsame)
      · rw [happ]
        refine ⟨Or.inr ⟨r, hU⟩, Or.inl hI, ?_, ?_⟩
        · intro rr hr
          rw [hInv]
          exact ⟨rr, hr, rfl, rfl, rfl, rfl, rfl⟩
        · intro e he hne
          rw [hW] at hne
          exact absurd he hne
  | opStoreIpo d =>
    cases hres : store_ipo d s with
    | error e => exact opFrame_of_fix _ _ (by simp [applyOp, hres])
    | ok p =>
      obtain ⟨b, s'⟩ := p
      have happ : applyOp (Op.opStoreIpo d) s = s' := by simp [applyOp, hres]
      obtain ⟨n, sy, hsh⟩ := store_ipo_ok_inv d s b s' hres
      rw [happ, hsh]
      exact ⟨Or.inl rfl, Or.inr ⟨_, rfl⟩,
        fun r hr => ⟨r, hr, rfl, rfl, rfl, rfl, rfl⟩,
        fun e he hne => absurd he hne⟩
  | opAddWatch u i ed =>
    cases hres : add_to_watchlist u i ed s with
    | error e => exact opFrame_of_fix _ _ (by simp [applyOp, hres])
    | ok p =>
      obtain ⟨w, s'⟩ := p
      have happ : applyOp (Op.opAddWatch u i ed) s = s' := by
        simp [applyOp, hres]
      obtain ⟨-, hsh, -, -⟩ := add_to_watchlist_ok_inv s u i ed w s' hres
      rw [happ, hsh]
      refine ⟨Or.inl rfl, Or.inl rfl,
        fun r hr => ⟨r, hr, rfl, rfl, rfl, rfl, rfl⟩, ?_⟩
      intro e he hne
      exact absurd (List.mem_append_left _ he) hne
  | opRemoveWatch w uid =>
    refine ⟨Or.inl rfl, Or.inl rfl,
      fun r hr => ⟨r, hr, rfl, rfl, rfl, rfl, rfl⟩, ?_⟩
    intro e he hne
    cases hb : (e.watchlist_id == w && e.user_id == uid) with
    | false =>
      exact absurd (List.mem_filter.mpr ⟨he, by simp [hb]⟩) hne
    | true =>
      obtain ⟨h1, h2⟩ := Bool.and_eq_true _ _ |>.mp hb
      rw [beq_iff_eq] at h1 h2
      rw [h1, h2]
  | opAddInvestment u i sh pp sd st =>
    cases hres : add_investment u i sh pp sd st s with
    | error e => exact opFrame_of_fix _ _ (by simp [applyOp, hres])
    | ok p =>
      obtain ⟨iid, s'⟩ := p
      have happ : applyOp (Op.opAddInvestment u i sh pp sd st) s = s' := by
        simp [applyOp, hres]
      obtain ⟨-, hsh⟩ := add_investment_ok_inv u i sh pp sd st s iid s' hres
      rw [happ, hsh]
      exact ⟨Or.inl rfl, Or.inl rfl,
        fun r hr => ⟨r, List.mem_append_left _ hr, rfl, rfl, rfl, rfl, rfl⟩,
        fun e he hne => absurd he hne⟩
  | opUpdateInvestment iid uid st sd =>
    have husers : (applyOp (Op.opUpdateInvestment iid uid st sd) s).users
        = s.users := by
      cases sd <;> rfl
    have hipos : (applyOp (Op.opUpdateInvestment iid uid st sd) s).ipos
        = s.ipos := by
      cases sd <;> rfl
    have hwatch : (applyOp (Op.opUpdateInvestment iid uid st sd) s).watchlist
        = s.watchlist := by
      cases sd <;> rfl
    refine ⟨Or.inl husers, Or.inl hipos, ?_, ?_⟩
    · intro r hr
      cases sd with
      | none =>
        refine ⟨(fun x =>
            if x.investment_id == iid && x.user_id == uid then
              { x with status := st }
            else x) r, List.mem_map_of_mem _ hr, ?_⟩
        by_cases hc : (r.investment_id == iid && r.user_id == uid) = true
        · simp [hc]
        · simp [hc]
      | some v =>
        refine ⟨(fun x =>
            if x.investment_id == iid && x.user_id == uid then
              { x with status := st, sold_date := some v }
            else x) r, List.mem_map_of_mem _ hr, ?_⟩
        by_cases hc : (r.investment_id == iid && r.user_id == uid) = true
        · simp [hc]
        · simp [hc]
    · intro e he hne
      rw [hwatch] at hne
      exact absurd he hne

/-- C9 witness: on the concrete store `sInv`, storing an IPO only
appends to the IPO table, and bob's attempt to remove alice's watchlist
entry does not make the entry disappear (the only-owner-deletes
conjunct, applied where the operation is *not* a remove by the owner,
forces the entry to still be present). -/
theorem ops_immutability_witness :
    ((applyOp (Op.opStoreIpo dIpo) sInv).ipos = sInv.ipos ∨
      ∃ r, (applyOp (Op.opStoreIpo dIpo) sInv).ipos = sInv.ipos ++ [r]) ∧
    (⟨1, 1, 1, none⟩ : WatchRow) ∈ (applyOp (Op.opRemoveWatch 1 2) sInv).watchlist := by
  constructor
  · exact (ops_immutability (Op.opStoreIpo dIpo) sInv).2.1
  · by_contra hne
    have h := (ops_immutability (Op.opRemoveWatch 1 2) sInv).2.2.2
      ⟨1, 1, 1, none⟩ (by decide) hne
    simp only [Op.opRemoveWatch.injEq] at h
    omega
